import Mathlib

/-!
Verification of the iterative refinement engine.

Shallow embedding of the repository's core: the data model
(knowledge_state.py), the rule-based improvement operators (operators.py:
NormalizeEvidenceOperator, MergeDuplicateClaimsOperator,
RemoveWeakClaimsOperator, and the shared verify_invariants check) and the
engine (engine.py: IterativeRefinementEngine.refine and analyze_stability).

Modelling conventions:
* Python dicts are insertion-ordered; the claims dict is keyed by the
  claim's own id everywhere in the repository, so it is modelled as an
  ordered list of claims (lookup/delete by id).  relationships and
  metadata are ordered association lists.
* Python floats (confidence, similarity thresholds, similarity ratios)
  are modelled as rationals; every comparison exercised here is exact.
* `list(set(xs))` produces the distinct elements of `xs` in an
  unspecified order; it is modelled as `xs.dedup` (first-occurrence
  order).  Every downstream use is order-insensitive (the result is
  either sorted immediately or used only as a set).
* metadata values are heterogeneous in Python ('source' holds a string,
  'merges' a list of merge records, 'weak_removals' a list of ids); they
  are modelled by the inductive type `MetaVal`.
-/

/-- A merge audit record appended to `metadata['merges']` by
MergeDuplicateClaimsOperator (operators.py lines 111-115). -/
structure MergeRecord where
  kept : String
  removed : String
  similarity : ℚ
deriving DecidableEq, Repr

/-- A metadata value (Python `any`): the shapes actually stored by the
repository's code. -/
inductive MetaVal where
  | str (s : String)
  | mergeList (l : List MergeRecord)
  | strList (l : List String)
deriving DecidableEq, Repr

/-- A single claim (knowledge_state.py, `Claim`).  The Python field
`section` is a Lean keyword and is named `sectionName` here. -/
structure Claim where
  id : String
  text : String
  evidence : List String
  sectionName : String
  confidence : ℚ
deriving DecidableEq, Repr

/-- Structured representation of paper content (knowledge_state.py,
`KnowledgeState`). -/
structure KnowledgeState where
  claims : List Claim
  relationships : List (String × List String)
  metadata : List (String × MetaVal)
deriving DecidableEq, Repr

/-- Python `key in dict` on a metadata dict. -/
def metaHasKey (metadata : List (String × MetaVal)) (key : String) : Bool :=
  metadata.any (fun p => p.1 = key)

/-- The shared invariant check of the operator base class
(operators.py lines 24-32 and src/operators/base.py lines 22-32):
never lose claims without merging. -/
def verify_invariants (old_state new_state : KnowledgeState) : Bool :=
  if new_state.claims.length < old_state.claims.length then
    if ¬ metaHasKey new_state.metadata "merges" then false
    else true
  else true

/-- An improvement operator as the engine sees it (duck-typed interface:
a name, `apply`, and `verify_invariants`).  Every operator defined in the
repository uses the base class's `verify_invariants`. -/
structure Operator where
  name : String
  apply : KnowledgeState → KnowledgeState × Bool
  verifyInvariants : KnowledgeState → KnowledgeState → Bool

/-! ## NormalizeEvidenceOperator (operators.py lines 35-67) -/

/-- Lexicographic (code-point) comparison of character lists: the order
Python's `list.sort()` uses on strings.  Defined by structural recursion
so it evaluates inside the kernel. -/
def lexLeChars : List Char → List Char → Bool
  | [], _ => true
  | _ :: _, [] => false
  | a :: as, b :: bs =>
    if a < b then true else if b < a then false else lexLeChars as bs

/-- Lexicographic comparison of strings by code points. -/
def lexLe (a b : String) : Bool := lexLeChars a.data b.data

/-- One loop body of NormalizeEvidenceOperator.apply: deduplicate the
claim's evidence (`list(set(...))`) and sort it lexicographically,
flagging a modification when length or content/order changed. -/
def normalizeClaim (claim : Claim) : Claim × Bool :=
  let unique_evidence :=
    claim.evidence.dedup.insertionSort (fun a b => lexLe a b = true)
  let modified :=
    decide (unique_evidence.length ≠ claim.evidence.length ∨
            unique_evidence ≠ claim.evidence)
  ({ claim with evidence := unique_evidence }, modified)

/-- NormalizeEvidenceOperator.apply: rebuilds every claim with
normalized evidence; relationships and metadata are carried over
(shallow copies). -/
def normalizeApply (state : KnowledgeState) : KnowledgeState × Bool :=
  let results := state.claims.map normalizeClaim
  ({ claims := results.map Prod.fst,
     relationships := state.relationships,
     metadata := state.metadata },
   results.any Prod.snd)

def NormalizeEvidenceOperator : Operator :=
  { name := "normalize_evidence", apply := normalizeApply,
    verifyInvariants := verify_invariants }

/-! ## MergeDuplicateClaimsOperator (operators.py lines 70-126)

The Python code shallow-copies the claims dict, so the Claim objects in
`new_state` are the very objects of the input state; `claim1.evidence`
and `claim1.confidence` are then reassigned in place.  The embedding
therefore computes, in one pass, the final (possibly mutated) version of
every claim, the set of removed ids, the appended merge records and the
modified flag; from these both the returned state and the post-call view
of the *input* state (which aliases the mutated claims) are derived. -/

/-- Inner loop: compare `c1` against each later claim `c2`, merging into
`c1` (in place, in Python) whenever the evidence-overlap similarity
reaches the threshold.  `c2` objects are never mutated here, only marked
removed. -/
def mergeInner (threshold : ℚ) (c1 : Claim) : List Claim → List String →
    List MergeRecord → Bool → Claim × List String × List MergeRecord × Bool
  | [], removed, recs, modified => (c1, removed, recs, modified)
  | c2 :: rest, removed, recs, modified =>
    if c2.id ∈ removed then mergeInner threshold c1 rest removed recs modified
    else
      let evidence1 := c1.evidence.dedup
      let evidence2 := c2.evidence.dedup
      if evidence1.isEmpty ∨ evidence2.isEmpty then
        mergeInner threshold c1 rest removed recs modified
      else
        let overlap := (evidence1.filter (fun e => e ∈ evidence2)).length
        -- overlap / min(len(evidence1), len(evidence2)); written with mkRat,
        -- which equals the division (Rat.mkRat_eq_div) and computes.
        let similarity : ℚ :=
          mkRat overlap (min evidence1.length evidence2.length)
        if threshold ≤ similarity then
          let c1' := { c1 with
            evidence := (evidence1 ++ evidence2).dedup,
            confidence := max c1.confidence c2.confidence }
          mergeInner threshold c1' rest (removed ++ [c2.id])
            (recs ++ [{ kept := c1.id, removed := c2.id,
                        similarity := similarity }]) true
        else mergeInner threshold c1 rest removed recs modified

/-- Outer loop over `claim_list`: each not-yet-removed claim acts as
`claim1` against all later claims.  Returns the final version of every
claim (in original order, removals not yet deleted), the removed ids,
the merge records, and the modified flag. -/
def mergeOuter (threshold : ℚ) : List Claim → List String →
    List MergeRecord → Bool → List Claim × List String × List MergeRecord × Bool
  | [], removed, recs, modified => ([], removed, recs, modified)
  | c1 :: rest, removed, recs, modified =>
    if c1.id ∈ removed then
      let r := mergeOuter threshold rest removed recs modified
      (c1 :: r.1, r.2)
    else
      let r1 := mergeInner threshold c1 rest removed recs modified
      let r2 := mergeOuter threshold rest r1.2.1 r1.2.2.1 r1.2.2.2
      (r1.1 :: r2.1, r2.2)

/-- Append merge records to `metadata['merges']` (creating the key with a
fresh empty list when absent, as the Python code does). -/
def metaAppendMerges (metadata : List (String × MetaVal))
    (recs : List MergeRecord) : List (String × MetaVal) :=
  if recs.isEmpty then metadata
  else if metaHasKey metadata "merges" then
    metadata.map (fun p =>
      if p.1 = "merges" then
        (p.1, match p.2 with
              | MetaVal.mergeList l => MetaVal.mergeList (l ++ recs)
              | v => v)
      else p)
  else metadata ++ [("merges", MetaVal.mergeList recs)]

/-- MergeDuplicateClaimsOperator.apply, with aliasing made explicit:
returns `(new_state, modified, post_input_state)` where
`post_input_state` is what the *input* state observably looks like after
the call (its Claim objects are shared with `new_state` and may have
been mutated in place; if the input metadata already had a `merges` key,
the shared list object was extended in place too). -/
def mergeApplyFull (threshold : ℚ) (state : KnowledgeState) :
    KnowledgeState × Bool × KnowledgeState :=
  let r := mergeOuter threshold state.claims [] [] false
  let finalClaims := r.1
  let removed := r.2.1
  let recs := r.2.2.1
  let modified := r.2.2.2
  let new_state : KnowledgeState :=
    { claims := finalClaims.filter (fun c => c.id ∉ removed),
      relationships := state.relationships.filter (fun p => p.1 ∉ removed),
      metadata := metaAppendMerges state.metadata recs }
  let post_state : KnowledgeState :=
    { claims := finalClaims,
      relationships := state.relationships,
      metadata := if metaHasKey state.metadata "merges"
                  then metaAppendMerges state.metadata recs
                  else state.metadata }
  (new_state, modified, post_state)

/-- The functional view of MergeDuplicateClaimsOperator.apply (what the
caller receives). -/
def mergeApply (threshold : ℚ) (state : KnowledgeState) :
    KnowledgeState × Bool :=
  ((mergeApplyFull threshold state).1, (mergeApplyFull threshold state).2.1)

/-- The input state as observable after MergeDuplicateClaimsOperator.apply
returns (capturing the in-place mutation through shared Claim objects). -/
def mergeApplyPost (threshold : ℚ) (state : KnowledgeState) : KnowledgeState :=
  (mergeApplyFull threshold state).2.2

def MergeDuplicateClaimsOperator (similarity_threshold : ℚ) : Operator :=
  { name := "merge_duplicates", apply := mergeApply similarity_threshold,
    verifyInvariants := verify_invariants }

/-! ## RemoveWeakClaimsOperator (operators.py lines 129-163) -/

/-- Append removed ids to `metadata['weak_removals']` (creating the key
when absent). -/
def metaAppendWeakRemovals (metadata : List (String × MetaVal))
    (ids : List String) : List (String × MetaVal) :=
  if metaHasKey metadata "weak_removals" then
    metadata.map (fun p =>
      if p.1 = "weak_removals" then
        (p.1, match p.2 with
              | MetaVal.strList l => MetaVal.strList (l ++ ids)
              | v => v)
      else p)
  else metadata ++ [("weak_removals", MetaVal.strList ids)]

/-- RemoveWeakClaimsOperator.apply: keep claims with
`confidence >= min_confidence`, drop the rest, prune their relationship
entries, and record the removed ids under `weak_removals` when any were
dropped. -/
def removeWeakApply (min_confidence : ℚ) (state : KnowledgeState) :
    KnowledgeState × Bool :=
  let keptClaims := state.claims.filter (fun c => min_confidence ≤ c.confidence)
  let removed_claims :=
    (state.claims.filter (fun c => ¬ min_confidence ≤ c.confidence)).map
      (fun c => c.id)
  let modified := ¬ removed_claims.isEmpty
  ({ claims := keptClaims,
     relationships := state.relationships.filter
       (fun p => p.1 ∉ removed_claims),
     metadata := if modified
                 then metaAppendWeakRemovals state.metadata removed_claims
                 else state.metadata },
   modified)

def RemoveWeakClaimsOperator (min_confidence : ℚ) : Operator :=
  { name := "remove_weak", apply := removeWeakApply min_confidence,
    verifyInvariants := verify_invariants }

/-! ## The refinement engine (engine.py lines 17-70) -/

/-- One entry of an iteration's `modifications` list (engine.py
lines 51-55). -/
structure ModificationEntry where
  operator : String
  claims_before : Nat
  claims_after : Nat
deriving DecidableEq, Repr

/-- One per-iteration snapshot (engine.py lines 31-35): the claim count
is taken at the start of the iteration. -/
structure IterationMetrics where
  iteration : Nat
  num_claims : Nat
  modifications : List ModificationEntry
deriving DecidableEq, Repr

/-- The refinement record returned by `refine`. -/
structure RefineMetrics where
  iterations : List IterationMetrics
  convergence_iteration : Option Nat
  total_applications : Nat
  operators_applied : List (String × Nat)
  final_state : KnowledgeState
deriving DecidableEq, Repr

/-- `metrics['operators_applied'][name] += 1` on a defaultdict(int):
increment in place when present, else append with count 1. -/
def bumpCount (counts : List (String × Nat)) (name : String) :
    List (String × Nat) :=
  if counts.any (fun p => p.1 = name) then
    counts.map (fun p => if p.1 = name then (p.1, p.2 + 1) else p)
  else counts ++ [(name, 1)]

/-- The running accumulator of the inner operator loop (engine.py
lines 37-57): current state, the `any_modified` flag, the cross-iteration
per-operator application counts, and this iteration's modifications. -/
structure InnerAcc where
  state : KnowledgeState
  anyModified : Bool
  operatorsApplied : List (String × Nat)
  modifications : List ModificationEntry
deriving DecidableEq, Repr

/-- The body of the inner operator loop (engine.py lines 39-57): apply
the operator, reject the candidate when `verify_invariants` fails
(leaving everything unchanged), otherwise record the modification when
flagged and advance the state (even when unmodified). -/
def opStep (acc : InnerAcc) (op : Operator) : InnerAcc :=
  let old_claim_count := acc.state.claims.length
  let applied := op.apply acc.state
  let new_state := applied.1
  let modified := applied.2
  if op.verifyInvariants acc.state new_state then
    let acc1 :=
      if modified then
        { acc with
          anyModified := true,
          operatorsApplied := bumpCount acc.operatorsApplied op.name,
          modifications := acc.modifications ++
            [{ operator := op.name, claims_before := old_claim_count,
               claims_after := new_state.claims.length }] }
      else acc
    { acc1 with state := new_state }
  else acc

/-- The iteration loop of `refine` (engine.py lines 30-65), recursing on
the remaining iteration budget.  Returns the iteration snapshots, the
convergence iteration, the per-operator counts and the final state. -/
def refineLoop (ops : List Operator) (fuel iteration : Nat)
    (state : KnowledgeState) (operatorsApplied : List (String × Nat)) :
    List IterationMetrics × Option Nat × List (String × Nat) × KnowledgeState :=
  match fuel with
  | 0 => ([], none, operatorsApplied, state)
  | fuel + 1 =>
    let acc := ops.foldl opStep
      { state := state, anyModified := false,
        operatorsApplied := operatorsApplied, modifications := [] }
    let snap : IterationMetrics :=
      { iteration := iteration, num_claims := state.claims.length,
        modifications := acc.modifications }
    if acc.anyModified then
      let rest := refineLoop ops fuel (iteration + 1) acc.state
        acc.operatorsApplied
      (snap :: rest.1, rest.2.1, rest.2.2.1, rest.2.2.2)
    else
      ([snap], some iteration, acc.operatorsApplied, acc.state)

/-- IterativeRefinementEngine.refine (engine.py lines 17-70). -/
def refine (ops : List Operator) (max_iterations : Nat)
    (initial_state : KnowledgeState) : RefineMetrics :=
  let r := refineLoop ops max_iterations 0 initial_state []
  { iterations := r.1,
    convergence_iteration := r.2.1,
    total_applications := (r.2.2.1.map Prod.snd).sum,
    operators_applied := r.2.2.1,
    final_state := r.2.2.2 }

/-! ## Stability analyzer (engine.py lines 72-92) -/

/-- The record returned by analyze_stability. -/
structure StabilityReport where
  is_monotonic : Bool
  converged : Bool
  convergence_speed : Nat
  total_modifications : Nat
  claim_reduction : Int
  final_claim_count : Nat
deriving DecidableEq, Repr

/-- IterativeRefinementEngine.analyze_stability.  Note the source
computes `convergence_iteration if convergence_iteration else
len(iterations)`: Python truthiness, under which both None and 0 select
the else branch. -/
def analyze_stability (metrics : RefineMetrics) : StabilityReport :=
  let claim_counts : List Nat := metrics.iterations.map (fun it => it.num_claims)
  let is_monotonic :=
    (claim_counts.zip claim_counts.tail).all (fun p => decide (p.2 ≤ p.1))
  let convergence_speed :=
    match metrics.convergence_iteration with
    | some n => if n = 0 then metrics.iterations.length else n
    | none => metrics.iterations.length
  let changes_per_iteration :=
    metrics.iterations.map (fun it => it.modifications.length)
  { is_monotonic := is_monotonic,
    converged := metrics.convergence_iteration.isSome,
    convergence_speed := convergence_speed,
    total_modifications := changes_per_iteration.sum,
    claim_reduction :=
      if claim_counts.isEmpty then 0
      else ((claim_counts.headD 0 : Nat) : Int) -
           ((claim_counts.getLastD 0 : Nat) : Int),
    final_claim_count :=
      if claim_counts.isEmpty then 0 else claim_counts.getLastD 0 }

/-! ## The demo's sample state (examples/demo.py lines 15-34) -/

def create_sample_state : KnowledgeState :=
  { claims := [
      { id := "c1", text := "Deep learning models require large datasets",
        evidence := ["paper1:fig2", "paper1:table1"],
        sectionName := "introduction", confidence := mkRat 9 10 },
      { id := "c2", text := "Neural networks need substantial training data",
        evidence := ["paper1:fig2", "paper2:sec3"],
        sectionName := "background", confidence := mkRat 17 20 },
      { id := "c3", text := "Transformers achieve state-of-the-art results",
        evidence := ["paper3:table2"],
        sectionName := "results", confidence := mkRat 19 20 },
      { id := "c4", text := "Attention mechanisms are important",
        evidence := ["paper3:fig1"],
        sectionName := "methods", confidence := mkRat 2 5 },
      { id := "c5", text := "BERT uses transformer architecture",
        evidence := ["paper4:sec2", "paper4:sec2"],
        sectionName := "methods", confidence := mkRat 9 10 }],
    relationships := [("c1", ["c2"]), ("c3", ["c5"])],
    metadata := [("source", MetaVal.str "sample_paper.txt")] }

/-- The demo's operator pipeline (examples/demo.py lines 44-48):
Normalize, Merge(0.5), RemoveWeak(0.5). -/
def demoOperators : List Operator :=
  [NormalizeEvidenceOperator, MergeDuplicateClaimsOperator (mkRat 1 2),
   RemoveWeakClaimsOperator (mkRat 1 2)]

/-- The list stored under `metadata['merges']` (empty when the key is
absent). -/
def metaMergesList (metadata : List (String × MetaVal)) : List MergeRecord :=
  match metadata.lookup "merges" with
  | some (MetaVal.mergeList l) => l
  | _ => []

/-! ## Accepted-state trace of a refinement run

`refine` threads one accepted state through `opStep`; these definitions
expose the sequence of accepted states it passes through (one entry per
operator application, per iteration), for stating run-wide invariants. -/

/-- The accepted states produced by one pass of the inner operator loop
(one entry per operator; rejected applications repeat the prior state). -/
def innerStates (ops : List Operator) (acc : InnerAcc) : List KnowledgeState :=
  match ops with
  | [] => []
  | op :: rest => (opStep acc op).state :: innerStates rest (opStep acc op)

/-- The accepted states of a whole run, mirroring `refineLoop`. -/
def refineLoopStates (ops : List Operator) (fuel : Nat)
    (state : KnowledgeState) (operatorsApplied : List (String × Nat)) :
    List KnowledgeState :=
  match fuel with
  | 0 => []
  | fuel + 1 =>
    let acc0 : InnerAcc :=
      { state := state, anyModified := false,
        operatorsApplied := operatorsApplied, modifications := [] }
    let acc := ops.foldl opStep acc0
    innerStates ops acc0 ++
      (if acc.anyModified then
        refineLoopStates ops fuel acc.state acc.operatorsApplied
       else [])

/-- The accepted states a full `refine` run passes through (not including
the initial state). -/
def engineStates (ops : List Operator) (max_iterations : Nat)
    (initial_state : KnowledgeState) : List KnowledgeState :=
  refineLoopStates ops max_iterations initial_state []

/-- The audit relation between consecutive accepted states: the claim
count may drop only when the later state's metadata has a `merges` key. -/
def auditOK (a b : KnowledgeState) : Prop :=
  b.claims.length < a.claims.length → metaHasKey b.metadata "merges" = true

/-! ## Test fixtures (concrete inputs used by witness theorems) -/

/-- Fixture: an operator that silently drops every claim without writing
any metadata, to exercise the engine's rejection path. -/
def dropAllClaimsOp : Operator :=
  { name := "drop_all",
    apply := fun s => ({ s with claims := [] }, true),
    verifyInvariants := verify_invariants }

/-- Fixture: an operator that reports a modification on every call and
returns the state unchanged (so the default invariant check passes). -/
def alwaysModifyOp : Operator :=
  { name := "always_modify",
    apply := fun s => (s, true),
    verifyInvariants := verify_invariants }

/-- Fixture: the inner-loop accumulator at the start of an iteration on
the sample state. -/
def sampleAcc : InnerAcc :=
  { state := create_sample_state, anyModified := false,
    operatorsApplied := [], modifications := [] }

/-- Fixture: two claims with disjoint evidence, so no merge fires. -/
def disjointState : KnowledgeState :=
  { claims := [
      { id := "d1", text := "claim one", evidence := ["p1:s1"],
        sectionName := "intro", confidence := mkRat 9 10 },
      { id := "d2", text := "claim two", evidence := ["p2:s2"],
        sectionName := "intro", confidence := mkRat 4 5 }],
    relationships := [],
    metadata := [] }

/-! # Claims -/

/-- C2: the default verify_invariants(old_state, new_state) check fails
exactly when the new state has strictly fewer claims than the old state
and the new state's metadata contains no 'merges' key; in every other
case (including a 'merges' key merely inherited by copy) it returns
true. -/
theorem C2_verify_invariants_spec (old_state new_state : KnowledgeState) :
    verify_invariants old_state new_state = false ↔
      (new_state.claims.length < old_state.claims.length ∧
       metaHasKey new_state.metadata "merges" = false) := by
  unfold verify_invariants
  split
  · split
    · simp_all
    · simp_all
  · simp_all

/-- C5: zero-iteration boundary: with max_iterations = 0, refine returns
an empty iteration list, a null convergence iteration, zero total
applications, and the initial state unchanged. -/
theorem C5_zero_iteration_boundary (ops : List Operator)
    (initial_state : KnowledgeState) :
    refine ops 0 initial_state =
      { iterations := [], convergence_iteration := none,
        total_applications := 0, operators_applied := [],
        final_state := initial_state } := rfl

/-- C10: with an empty operator list and max_iterations ≥ 1, refine
records exactly one iteration snapshot with zero modification entries,
converges at iteration 0, performs zero applications, and returns the
initial state. -/
theorem C10_empty_operator_list (initial_state : KnowledgeState)
    (max_iterations : Nat) (h : 1 ≤ max_iterations) :
    refine [] max_iterations initial_state =
      { iterations := [{ iteration := 0,
                         num_claims := initial_state.claims.length,
                         modifications := [] }],
        convergence_iteration := some 0, total_applications := 0,
        operators_applied := [], final_state := initial_state } := by
  obtain ⟨m, rfl⟩ : ∃ m, max_iterations = m + 1 :=
    ⟨max_iterations - 1, (Nat.succ_pred_eq_of_pos h).symm⟩
  rfl

theorem C10_empty_operator_list_witness :
    1 ≤ 3 ∧
    refine [] 3 create_sample_state =
      { iterations := [{ iteration := 0,
                         num_claims := create_sample_state.claims.length,
                         modifications := [] }],
        convergence_iteration := some 0, total_applications := 0,
        operators_applied := [], final_state := create_sample_state } :=
  ⟨by decide, C10_empty_operator_list create_sample_state 3 (by decide)⟩

/-- C3 (code bug): analyze_stability computes convergence_speed with
`convergence_iteration if convergence_iteration else len(iterations)`,
so a run that converges at iteration 0 (here: refine with no operators
and budget 1, which records one iteration and convergence_iteration = 0)
reports convergence_speed = 1, not 0 as the claim states. -/
theorem C3_convergence_speed_truthiness_bug :
    (refine [] 1 create_sample_state).convergence_iteration = some 0 ∧
    (refine [] 1 create_sample_state).iterations.length = 1 ∧
    (analyze_stability (refine [] 1 create_sample_state)).convergence_speed
      = 1 := by
  exact ⟨rfl, rfl, rfl⟩

/-- C4: whenever an operator's verify_invariants check rejects the
candidate state, the inner-loop step leaves the accumulator entirely
unchanged: same state for the next operator, any_modified not set, the
per-operator counts and the iteration's modifications list untouched.
The loop is a total fold of this step over the remaining operators, so
the iteration continues and no exception reaches the caller. -/
theorem C4_invariant_violation_discards_candidate (acc : InnerAcc)
    (op : Operator)
    (h : op.verifyInvariants acc.state (op.apply acc.state).1 = false) :
    opStep acc op = acc := by
  unfold opStep
  simp [h]

theorem C4_invariant_violation_discards_candidate_witness :
    dropAllClaimsOp.verifyInvariants sampleAcc.state
      (dropAllClaimsOp.apply sampleAcc.state).1 = false ∧
    opStep sampleAcc dropAllClaimsOp = sampleAcc :=
  ⟨by decide,
   C4_invariant_violation_discards_candidate sampleAcc dropAllClaimsOp
     (by decide)⟩

/-- C7: the worked example: refining the five-claim sample state with
[Normalize, Merge(0.5), RemoveWeak(0.5)] ends with exactly the three
claims c1, c3, c5 (c2 merged into c1, c4 removed), exactly one entry in
metadata['merges'], and analyze_stability reporting is_monotonic =
true. -/
theorem C7_worked_example :
    (refine demoOperators 50 create_sample_state).final_state.claims.map
        (fun c => c.id) = ["c1", "c3", "c5"] ∧
    (refine demoOperators 50 create_sample_state).final_state.claims.length
      = 3 ∧
    metaMergesList
        (refine demoOperators 50 create_sample_state).final_state.metadata
      = [{ kept := "c1", removed := "c2", similarity := mkRat 1 2 }] ∧
    (analyze_stability
        (refine demoOperators 50 create_sample_state)).is_monotonic
      = true := by
  refine ⟨by decide, by decide, by decide, by decide⟩

/-! ## Order lemmas for the lexicographic comparison (used for C6) -/

theorem lexLeChars_total : ∀ as bs : List Char,
    lexLeChars as bs = true ∨ lexLeChars bs as = true
  | [], _ => Or.inl rfl
  | _ :: _, [] => Or.inr rfl
  | a :: as, b :: bs => by
    by_cases hab : a < b
    · exact Or.inl (by simp [lexLeChars, hab])
    · by_cases hba : b < a
      · exact Or.inr (by simp [lexLeChars, hba])
      · cases lexLeChars_total as bs with
        | inl h => exact Or.inl (by simp [lexLeChars, hab, hba, h])
        | inr h => exact Or.inr (by simp [lexLeChars, hab, hba, h])

theorem lexLeChars_trans : ∀ as bs cs : List Char,
    lexLeChars as bs = true → lexLeChars bs cs = true →
    lexLeChars as cs = true
  | [], _, _, _, _ => rfl
  | _ :: _, [], _, h1, _ => by simp [lexLeChars] at h1
  | _ :: _, _ :: _, [], _, h2 => by simp [lexLeChars] at h2
  | a :: as, b :: bs, c :: cs, h1, h2 => by
    simp only [lexLeChars] at h1 h2 ⊢
    by_cases hab : a < b
    · by_cases hbc : b < c
      · simp [lt_trans hab hbc]
      · by_cases hcb : c < b
        · simp [hbc, hcb] at h2
        · have hbceq : b = c := le_antisymm (not_lt.1 hcb) (not_lt.1 hbc)
          subst hbceq
          simp [hab]
    · by_cases hba : b < a
      · simp [hab, hba] at h1
      · have habeq : a = b := le_antisymm (not_lt.1 hba) (not_lt.1 hab)
        subst habeq
        simp only [lt_irrefl, if_false] at h1
        by_cases hac : a < c
        · simp [hac]
        · by_cases hca : c < a
          · simp [hac, hca] at h2
          · simp only [hac, hca, if_false]
            simp only [hac, hca, if_false] at h2
            exact lexLeChars_trans as bs cs h1 h2

/-- A claim whose evidence is already distinct and sorted is reported
unmodified by normalization. -/
theorem normalizeClaim_snd_of_normalized (d : Claim)
    (hnd : d.evidence.Nodup)
    (hs : List.Sorted (fun a b => lexLe a b = true) d.evidence) :
    (normalizeClaim d).2 = false := by
  unfold normalizeClaim
  simp only [List.dedup_eq_self.2 hnd, hs.insertionSort_eq]
  simp

/-- After one normalization, a claim's evidence is distinct and
sorted, so the second normalization reports no modification. -/
theorem normalizeClaim_snd_idempotent (c : Claim) :
    (normalizeClaim (normalizeClaim c).1).2 = false := by
  haveI : IsTotal String (fun a b => lexLe a b = true) :=
    ⟨fun a b => lexLeChars_total a.data b.data⟩
  haveI : IsTrans String (fun a b => lexLe a b = true) :=
    ⟨fun a b c => lexLeChars_trans a.data b.data c.data⟩
  apply normalizeClaim_snd_of_normalized
  · show (normalizeClaim c).1.evidence.Nodup
    unfold normalizeClaim
    exact ((List.perm_insertionSort _ _).nodup_iff).2 (List.nodup_dedup _)
  · show List.Sorted _ (normalizeClaim c).1.evidence
    unfold normalizeClaim
    exact List.sorted_insertionSort _ _

/-- C6: normalization is idempotent: applying NormalizeEvidenceOperator
twice in a row (the second apply on the first apply's output state), the
second application always reports modified = false, because after the
first application every claim's evidence list is already deduplicated
and sorted. -/
theorem C6_normalize_idempotent (state : KnowledgeState) :
    (normalizeApply (normalizeApply state).1).2 = false := by
  unfold normalizeApply
  simp [List.map_map, List.any_map, List.any_eq_false, Function.comp,
        normalizeClaim_snd_idempotent]

/-! ## Merge-pass lemmas (used for C8) -/

/-- The modified flag threaded through the inner merge loop is never
reset. -/
theorem mergeInner_modified_mono (threshold : ℚ) : ∀ (c1 : Claim)
    (rest : List Claim) (removed : List String) (recs : List MergeRecord),
    (mergeInner threshold c1 rest removed recs true).2.2.2 = true
  | _, [], _, _ => rfl
  | c1, c2 :: rest, removed, recs => by
    simp only [mergeInner]
    split_ifs with h1 h2 h3
    · exact mergeInner_modified_mono threshold c1 rest removed recs
    · exact mergeInner_modified_mono threshold c1 rest removed recs
    · exact mergeInner_modified_mono threshold _ rest _ _
    · exact mergeInner_modified_mono threshold c1 rest removed recs

/-- If the inner merge loop reports no modification, it changed
nothing: the kept claim, removed set and merge records are returned as
they came in. -/
theorem mergeInner_not_modified (threshold : ℚ) : ∀ (c1 : Claim)
    (rest : List Claim) (removed : List String) (recs : List MergeRecord)
    (modified : Bool),
    (mergeInner threshold c1 rest removed recs modified).2.2.2 = false →
    mergeInner threshold c1 rest removed recs modified =
      (c1, removed, recs, modified)
  | _, [], _, _, _, _ => rfl
  | c1, c2 :: rest, removed, recs, modified, h => by
    simp only [mergeInner] at h ⊢
    split_ifs at h ⊢ with h1 h2 h3
    · exact mergeInner_not_modified threshold c1 rest removed recs modified h
    · exact mergeInner_not_modified threshold c1 rest removed recs modified h
    · rw [mergeInner_modified_mono] at h
      exact absurd h (by simp)
    · exact mergeInner_not_modified threshold c1 rest removed recs modified h

/-- The modified flag threaded through the outer merge loop is never
reset. -/
theorem mergeOuter_modified_mono (threshold : ℚ) : ∀ (claims : List Claim)
    (removed : List String) (recs : List MergeRecord),
    (mergeOuter threshold claims removed recs true).2.2.2 = true
  | [], _, _ => rfl
  | c1 :: rest, removed, recs => by
    simp only [mergeOuter]
    split_ifs with h1
    · exact mergeOuter_modified_mono threshold rest removed recs
    · simp only [mergeInner_modified_mono threshold c1 rest removed recs]
      exact mergeOuter_modified_mono threshold rest _ _

/-- If the whole merge pass reports no modification, it changed
nothing. -/
theorem mergeOuter_not_modified (threshold : ℚ) : ∀ (claims : List Claim)
    (removed : List String) (recs : List MergeRecord) (modified : Bool),
    (mergeOuter threshold claims removed recs modified).2.2.2 = false →
    mergeOuter threshold claims removed recs modified =
      (claims, removed, recs, modified)
  | [], _, _, _, _ => rfl
  | c1 :: rest, removed, recs, modified, h => by
    simp only [mergeOuter] at h ⊢
    split_ifs at h ⊢ with h1
    · have hr := mergeOuter_not_modified threshold rest removed recs modified
        (by simpa using h)
      simp [hr]
    · simp only [] at h
      have hr2 := mergeOuter_not_modified threshold rest _ _ _ h
      have hz : (mergeInner threshold c1 rest removed recs modified).2.2.2
          = false := by
        rw [hr2] at h
        exact h
      have hr1 := mergeInner_not_modified threshold c1 rest removed recs
        modified hz
      simp only [hr1] at hr2 ⊢
      simp [hr2]

/-- C8 counterexample: after MergeDuplicateClaimsOperator.apply (at
threshold 0.5) on the sample state, the claims reachable from the input
state do not all retain their original evidence lists and confidence
values — the retained claim c1 was mutated in place through the shared
Claim objects. -/
theorem C8_counterexample_input_mutated :
    ¬ ((mergeApplyPost (mkRat 1 2) create_sample_state).claims.map
          (fun c => (c.id, c.evidence, c.confidence)) =
        create_sample_state.claims.map
          (fun c => (c.id, c.evidence, c.confidence))) := by decide

/-- C8 amended: MergeDuplicateClaimsOperator.apply leaves the input
state observably unmutated only when no merge fires, i.e. whenever it
reports modified = false the post-call view of the input state equals
the input state; when a merge fires, the retained claim's evidence and
confidence are reassigned in place through Claim objects shared with the
input state (and are observable there after the call). -/
theorem C8_amended_no_merge_no_mutation (threshold : ℚ)
    (state : KnowledgeState)
    (h : (mergeApply threshold state).2 = false) :
    mergeApplyPost threshold state = state := by
  have h' : (mergeOuter threshold state.claims [] [] false).2.2.2 = false := by
    simpa [mergeApply, mergeApplyFull] using h
  have hall := mergeOuter_not_modified threshold state.claims [] [] false h'
  unfold mergeApplyPost mergeApplyFull
  rw [hall]
  simp [metaAppendMerges]

theorem C8_amended_no_merge_no_mutation_witness :
    (mergeApply (mkRat 1 2) disjointState).2 = false ∧
    mergeApplyPost (mkRat 1 2) disjointState = disjointState :=
  ⟨by decide,
   C8_amended_no_merge_no_mutation (mkRat 1 2) disjointState (by decide)⟩

/-! ## Engine loop lemmas (used for C9 and C1) -/

/-- The any_modified flag is never reset by an inner-loop step. -/
theorem opStep_anyModified_mono (acc : InnerAcc) (op : Operator)
    (h : acc.anyModified = true) : (opStep acc op).anyModified = true := by
  simp only [opStep]
  split_ifs <;> simp [h]

theorem foldl_opStep_anyModified_mono : ∀ (ops : List Operator)
    (acc : InnerAcc), acc.anyModified = true →
    (ops.foldl opStep acc).anyModified = true
  | [], _, h => h
  | op :: rest, acc, h =>
    foldl_opStep_anyModified_mono rest _ (opStep_anyModified_mono acc op h)

/-- A step whose operator reports a modification and passes the
invariant check sets any_modified. -/
theorem opStep_always_sets (acc : InnerAcc) (op : Operator)
    (h1 : (op.apply acc.state).2 = true)
    (h2 : op.verifyInvariants acc.state (op.apply acc.state).1 = true) :
    (opStep acc op).anyModified = true := by
  unfold opStep
  simp [h1, h2]

theorem foldl_opStep_always_sets (l1 l2 : List Operator) (op : Operator)
    (acc : InnerAcc)
    (h : ∀ t, (op.apply t).2 = true ∧
              op.verifyInvariants t (op.apply t).1 = true) :
    ((l1 ++ op :: l2).foldl opStep acc).anyModified = true := by
  rw [List.foldl_append, List.foldl_cons]
  exact foldl_opStep_anyModified_mono l2 _
    (opStep_always_sets _ op (h _).1 (h _).2)

/-- The loop records at most `fuel` iteration snapshots. -/
theorem refineLoop_length_le : ∀ (ops : List Operator) (fuel iteration : Nat)
    (state : KnowledgeState) (oa : List (String × Nat)),
    (refineLoop ops fuel iteration state oa).1.length ≤ fuel
  | _, 0, _, _, _ => by simp [refineLoop]
  | ops, fuel + 1, it, s, oa => by
    simp only [refineLoop]
    split
    · simpa using Nat.succ_le_succ (refineLoop_length_le ops fuel (it + 1) _ _)
    · simp

/-- With an always-modifying, invariant-passing operator in the list,
the loop uses its whole budget and never sets a convergence iteration. -/
theorem refineLoop_exhausts : ∀ (l1 l2 : List Operator) (op : Operator)
    (fuel iteration : Nat) (state : KnowledgeState)
    (oa : List (String × Nat)),
    (∀ t, (op.apply t).2 = true ∧
          op.verifyInvariants t (op.apply t).1 = true) →
    (refineLoop (l1 ++ op :: l2) fuel iteration state oa).1.length = fuel ∧
    (refineLoop (l1 ++ op :: l2) fuel iteration state oa).2.1 = none
  | _, _, _, 0, _, _, _, _ => by simp [refineLoop]
  | l1, l2, op, fuel + 1, it, s, oa, hp => by
    simp only [refineLoop]
    have hmod := foldl_opStep_always_sets l1 l2 op
      { state := s, anyModified := false, operatorsApplied := oa,
        modifications := [] } hp
    simp only [hmod, if_true]
    have ih := refineLoop_exhausts l1 l2 op fuel (it + 1)
      ((l1 ++ op :: l2).foldl opStep
        { state := s, anyModified := false, operatorsApplied := oa,
          modifications := [] }).state
      ((l1 ++ op :: l2).foldl opStep
        { state := s, anyModified := false, operatorsApplied := oa,
          modifications := [] }).operatorsApplied hp
    exact ⟨by simp only [List.length_cons, ih.1], ih.2⟩

/-- C9: refine always terminates with at most max_iterations recorded
iterations; and when the operator list contains an operator that reports
modified = true on every call and always passes the invariant check,
refine records exactly max_iterations iterations and returns normally
with a null convergence iteration — non-convergence is not an error and
there is no loop detection beyond the cap. -/
theorem C9_bounded_termination (ops : List Operator) (max_iterations : Nat)
    (initial_state : KnowledgeState) :
    (refine ops max_iterations initial_state).iterations.length
      ≤ max_iterations ∧
    (∀ op ∈ ops,
      (∀ t, (op.apply t).2 = true ∧
            op.verifyInvariants t (op.apply t).1 = true) →
      (refine ops max_iterations initial_state).iterations.length
        = max_iterations ∧
      (refine ops max_iterations initial_state).convergence_iteration
        = none) := by
  constructor
  · exact refineLoop_length_le ops max_iterations 0 initial_state []
  · intro op hmem hp
    obtain ⟨l1, l2, rfl⟩ := List.append_of_mem hmem
    exact refineLoop_exhausts l1 l2 op max_iterations 0 initial_state [] hp

theorem C9_bounded_termination_witness :
    alwaysModifyOp ∈ [alwaysModifyOp] ∧
    (∀ t, (alwaysModifyOp.apply t).2 = true ∧
          alwaysModifyOp.verifyInvariants t (alwaysModifyOp.apply t).1
            = true) ∧
    (refine [alwaysModifyOp] 3 create_sample_state).iterations.length = 3 ∧
    (refine [alwaysModifyOp] 3 create_sample_state).convergence_iteration
      = none :=
  ⟨List.mem_singleton.2 rfl,
   fun t => ⟨rfl, by simp [alwaysModifyOp, verify_invariants]⟩,
   (C9_bounded_termination [alwaysModifyOp] 3 create_sample_state).2
     alwaysModifyOp (List.mem_singleton.2 rfl)
     (fun t => ⟨rfl, by simp [alwaysModifyOp, verify_invariants]⟩)⟩

/-! ## Audit-chain lemmas (used for C1) -/

theorem auditOK_refl (a : KnowledgeState) : auditOK a a :=
  fun h => absurd h (lt_irrefl _)

/-- When the default check passes on a state pair that lost claims, the
new metadata must contain the merges key. -/
theorem merges_of_verify (old_state new_state : KnowledgeState)
    (h : verify_invariants old_state new_state = true)
    (hlt : new_state.claims.length < old_state.claims.length) :
    metaHasKey new_state.metadata "merges" = true := by
  unfold verify_invariants at h
  rw [if_pos hlt] at h
  by_contra hk
  rw [if_pos hk] at h
  simp at h

/-- Every inner-loop step with the default invariant check moves to a
state related to the previous one by the audit relation. -/
theorem opStep_auditOK (acc : InnerAcc) (op : Operator)
    (hop : ∀ a b, op.verifyInvariants a b = verify_invariants a b) :
    auditOK acc.state (opStep acc op).state := by
  simp only [opStep]
  split_ifs with hv hm
  · intro hlt
    exact merges_of_verify acc.state _ (by rw [← hop]; exact hv) hlt
  · intro hlt
    exact merges_of_verify acc.state _ (by rw [← hop]; exact hv) hlt
  · exact auditOK_refl _

theorem innerStates_chain : ∀ (ops : List Operator) (acc : InnerAcc),
    (∀ op ∈ ops, ∀ a b, op.verifyInvariants a b = verify_invariants a b) →
    List.Chain auditOK acc.state (innerStates ops acc)
  | [], _, _ => List.Chain.nil
  | op :: rest, acc, h => by
    simp only [innerStates]
    exact List.Chain.cons (opStep_auditOK acc op (h op (by simp)))
      (innerStates_chain rest _ (fun o ho a b => h o (by simp [ho]) a b))

theorem innerStates_getLast : ∀ (ops : List Operator) (acc : InnerAcc),
    (innerStates ops acc).getLastD acc.state = (ops.foldl opStep acc).state
  | [], _ => rfl
  | op :: rest, acc => by
    simp only [innerStates, List.foldl_cons]
    rw [List.getLastD_cons]
    exact innerStates_getLast rest (opStep acc op)

theorem chain_append_of {α : Type} (R : α → α → Prop) :
    ∀ (l1 l2 : List α) (a : α), List.Chain R a l1 →
    List.Chain R (l1.getLastD a) l2 → List.Chain R a (l1 ++ l2)
  | [], _, _, _, h2 => h2
  | b :: l1, l2, a, h1, h2 => by
    cases h1 with
    | cons hab h1 =>
      rw [List.getLastD_cons] at h2
      exact List.Chain.cons hab (chain_append_of R l1 l2 b h1 h2)

theorem getLastD_append_of {α : Type} : ∀ (l1 l2 : List α) (d : α),
    (l1 ++ l2).getLastD d = l2.getLastD (l1.getLastD d)
  | [], _, _ => rfl
  | a :: l1, l2, d => by
    rw [List.cons_append, List.getLastD_cons, List.getLastD_cons]
    exact getLastD_append_of l1 l2 a

theorem refineLoopStates_chain : ∀ (ops : List Operator) (fuel : Nat)
    (state : KnowledgeState) (oa : List (String × Nat)),
    (∀ op ∈ ops, ∀ a b, op.verifyInvariants a b = verify_invariants a b) →
    List.Chain auditOK state (refineLoopStates ops fuel state oa)
  | _, 0, _, _, _ => List.Chain.nil
  | ops, fuel + 1, state, oa, h => by
    simp only [refineLoopStates]
    apply chain_append_of
    · exact innerStates_chain ops
        { state := state, anyModified := false, operatorsApplied := oa,
          modifications := [] } h
    · rw [innerStates_getLast]
      split_ifs with hm
      · exact refineLoopStates_chain ops fuel _ _ h
      · exact List.Chain.nil

theorem refineLoopStates_getLast : ∀ (ops : List Operator)
    (fuel iteration : Nat) (state : KnowledgeState)
    (oa : List (String × Nat)),
    (refineLoopStates ops fuel state oa).getLastD state =
      (refineLoop ops fuel iteration state oa).2.2.2
  | _, 0, _, _, _ => rfl
  | ops, fuel + 1, it, state, oa => by
    simp only [refineLoopStates, refineLoop]
    rw [getLastD_append_of, innerStates_getLast]
    split_ifs with hm
    · exact refineLoopStates_getLast ops fuel (it + 1) _ _
    · rfl

/-- C1: audit invariant enforced end-to-end: in every refinement run
whose operators all use the repository's default verify_invariants check
(as every operator in the repository does), the trace of accepted states
is a chain under the audit relation — whenever the accepted claim count
drops from one accepted state to the next, the new accepted state's
metadata contains a merges record; claims never disappear silently.  The
last state of the trace is refine's final state.  (With
RemoveWeakClaimsOperator, which records under weak_removals instead,
any count-reducing application lacking an inherited merges key is
rejected, so the chain property still holds.) -/
theorem C1_audit_invariant (ops : List Operator) (max_iterations : Nat)
    (initial_state : KnowledgeState)
    (hops : ∀ op ∈ ops, ∀ a b,
      op.verifyInvariants a b = verify_invariants a b) :
    List.Chain auditOK initial_state
      (engineStates ops max_iterations initial_state) ∧
    (engineStates ops max_iterations initial_state).getLastD initial_state
      = (refine ops max_iterations initial_state).final_state := by
  constructor
  · exact refineLoopStates_chain ops max_iterations initial_state [] hops
  · exact refineLoopStates_getLast ops max_iterations 0 initial_state []

theorem C1_audit_invariant_witness :
    (∀ op ∈ [RemoveWeakClaimsOperator (mkRat 1 2)], ∀ a b,
      op.verifyInvariants a b = verify_invariants a b) ∧
    List.Chain auditOK create_sample_state
      (engineStates [RemoveWeakClaimsOperator (mkRat 1 2)] 2
        create_sample_state) ∧
    (engineStates [RemoveWeakClaimsOperator (mkRat 1 2)] 2
        create_sample_state).getLastD create_sample_state
      = (refine [RemoveWeakClaimsOperator (mkRat 1 2)] 2
          create_sample_state).final_state :=
  ⟨fun op hop a b => by rw [List.mem_singleton.1 hop]; rfl,
   C1_audit_invariant [RemoveWeakClaimsOperator (mkRat 1 2)] 2
     create_sample_state
     (fun op hop a b => by rw [List.mem_singleton.1 hop]; rfl)⟩
